import Mathlib

/-!
# tumblrclient.go : URI builder, response classifier and signing-client cache

A shallow embedding of `client.go` (package `tumblrclient`).

* Go strings are byte sequences, so `GoString` is `List UInt8`; `str` turns a
  Lean string literal into its UTF-8 bytes.
* A Go function that can abort with a run-time panic returns `Except Panic _`.
* Nil-able Go pointers, interfaces, maps and slices are `Option`s.
* Methods with a pointer receiver that mutate the receiver return the new
  receiver value.
-/

set_option linter.dupNamespace false

namespace Tumblrclient

/-! ## Go strings and panics -/

/-- A Go `string`: an immutable sequence of bytes. -/
abbrev GoString := List UInt8

/-- The UTF-8 bytes of a string literal, as the Go compiler stores them. -/
def str (s : String) : GoString := s.data.flatMap String.utf8EncodeChar

/-- The byte `'/'`. -/
def slash : UInt8 := 47

/-- The ways a Go call in this package aborts instead of returning. -/
inductive Panic where
  /-- Run-time error `index out of range [index] with length length`. -/
  | indexOutOfRange (index length : Nat)
  /-- Run-time error `invalid memory address or nil pointer dereference`. -/
  | nilDereference
  /-- An explicit `panic(msg)`. -/
  | explicit (msg : GoString)
  deriving DecidableEq, Repr

deriving instance DecidableEq for Except

/-! ## URI builder -/

/-- `appendPath(base, path)`, `client.go` lines 116-122. The index expression
`path[0]` panics on the empty string. -/
def appendPath (base : GoString) (path : GoString) : Except Panic GoString :=
  match path[0]? with
  | none => .error (.indexOutOfRange 0 path.length)
  | some c =>
    let path := if c = slash then path.drop 1 else path
    .ok (base ++ path)

/-! ## Credentials and the cached signing client -/

/-- The fields of `oauth1.Config` that `oauth1.NewConfig` fills in. -/
structure Config where
  ConsumerKey : GoString
  ConsumerSecret : GoString
  deriving DecidableEq, Repr

/-- The type `oauth1.Token`. -/
structure Token where
  Token : GoString
  TokenSecret : GoString
  deriving DecidableEq, Repr

/-- The value of the `CheckRedirect` field of an `http.Client`. -/
inductive RedirectPolicy where
  /-- The field is nil: the default policy follows redirects. -/
  | followDefault
  /-- The function installed by `GetHttpClient`, which always returns
  `http.ErrUseLastResponse`. -/
  | useLastResponse
  deriving DecidableEq, Repr

/-- An `http.Client`, as far as this package can tell two of them apart: the
credentials its transport signs with (none for a plain client such as
`http.DefaultClient`) and its redirect policy. -/
structure HttpClient where
  signer : Option (Config × Option Token)
  CheckRedirect : RedirectPolicy
  deriving DecidableEq, Repr

/-- The value `http.DefaultClient`. -/
def DefaultClient : HttpClient := { signer := none, CheckRedirect := .followDefault }

/-- The constructor `oauth1.NewConfig(consumerKey, consumerSecret)`. -/
def NewConfig (consumerKey consumerSecret : GoString) : Config :=
  { ConsumerKey := consumerKey, ConsumerSecret := consumerSecret }

/-- The constructor `oauth1.NewToken(token, tokenSecret)`. -/
def NewToken (token tokenSecret : GoString) : Token :=
  { Token := token, TokenSecret := tokenSecret }

/-- The method `(*oauth1.Config).Client(ctx, t)`: a fresh `http.Client` whose
transport signs with the config and the token `t` (a pointer, possibly nil). -/
def Config.Client (c : Config) (t : Option Token) : HttpClient :=
  { signer := some (c, t), CheckRedirect := .followDefault }

/-- The struct `Client`, `client.go` lines 17-22: three pointers, each nil or
set. -/
structure Client where
  consumer : Option Config
  user : Option Token
  client : Option HttpClient
  deriving DecidableEq, Repr

/-- The zero value `Client{}`. -/
def Client.zero : Client := { consumer := none, user := none, client := none }

/-- `SetConsumer`, `client.go` lines 39-42. -/
def Client.SetConsumer (c : Client) (consumerKey consumerSecret : GoString) : Client :=
  let c := { c with consumer := some (NewConfig consumerKey consumerSecret) }
  { c with client := none }

/-- `SetToken`, `client.go` lines 45-48. -/
def Client.SetToken (c : Client) (token tokenSecret : GoString) : Client :=
  let c := { c with user := some (NewToken token tokenSecret) }
  { c with client := none }

/-- `NewClient`, `client.go` lines 25-29. -/
def NewClient (consumerKey consumerSecret : GoString) : Client :=
  Client.zero.SetConsumer consumerKey consumerSecret

/-- `NewClientWithToken`, `client.go` lines 32-36. -/
def NewClientWithToken (consumerKey consumerSecret token tokenSecret : GoString) : Client :=
  (NewClient consumerKey consumerSecret).SetToken token tokenSecret

/-- The message of the explicit panic in `GetHttpClient`. -/
def noConsumerMsg : GoString := str "Consumer credentials are not set"

/-- `GetHttpClient`, `client.go` lines 99-113. Returns the receiver as the call
leaves it together with the returned `*http.Client`, or the panic. The
`consumer` used on line 107 is the pointer tested on line 100: `SetToken`
writes only `user` and `client`. -/
def Client.GetHttpClient (c : Client) : Except Panic (Client × HttpClient) :=
  match c.consumer with
  | none => .error (.explicit noConsumerMsg)
  | some consumer =>
    let c := if c.user = none then c.SetToken [] [] else c
    match c.client with
    | some cached => .ok (c, cached)
    | none =>
      let built := consumer.Client c.user
      let built := { built with CheckRedirect := .useLastResponse }
      .ok ({ c with client := some built }, built)

/-- The calls that change a `Client`. -/
inductive Op where
  | setConsumer (consumerKey consumerSecret : GoString)
  | setToken (token tokenSecret : GoString)
  | getHttpClient
  deriving DecidableEq, Repr

/-- One call on a client; `none` when the call panics. -/
def Op.apply : Op → Client → Option Client
  | .setConsumer k s, c => some (c.SetConsumer k s)
  | .setToken t s, c => some (c.SetToken t s)
  | .getHttpClient, c =>
    match c.GetHttpClient with
    | .ok (c', _) => some c'
    | .error _ => none

/-- A sequence of calls, left to right; `none` as soon as one panics. -/
def runOps : List Op → Client → Option Client
  | [], c => some c
  | op :: ops, c =>
    match op.apply c with
    | some c' => runOps ops c'
    | none => none

/-- The client that `GetHttpClient` builds from a consumer and a user. -/
def signingClient (consumer : Config) (user : Token) : HttpClient :=
  { consumer.Client (some user) with CheckRedirect := .useLastResponse }

/-- The cache is consistent: a cached client implies that both credential slots
are set and that the cached client is the one built from them. -/
def Client.cacheConsistent (c : Client) : Prop :=
  ∀ cached, c.client = some cached →
    ∃ consumer user, c.consumer = some consumer ∧ c.user = some user ∧
      cached = signingClient consumer user

/-! ## Query parameters -/

/-- A `url.Values`, that is a `map[string][]string`, as the list of its
entries. A Go map holds each key once; the theorems that depend on it assume
`Values.WellFormed`. -/
abbrev Values := List (GoString × List GoString)

/-- The keys of a map are pairwise distinct. -/
def Values.WellFormed (v : Values) : Prop := (v.map Prod.fst).Nodup

instance (v : Values) : Decidable v.WellFormed :=
  inferInstanceAs (Decidable (v.map Prod.fst).Nodup)

/-- The index expression `v[k]` on a map: the nil slice for a missing key. -/
def Values.index (v : Values) (k : GoString) : List GoString :=
  match v.lookup k with
  | some vs => vs
  | none => []

/-- Go's `<` on strings: bytewise lexicographic order, a proper initial
segment being smaller. -/
def strLess : GoString → GoString → Bool
  | [], [] => false
  | [], _ :: _ => true
  | _ :: _, [] => false
  | a :: as, b :: bs => if a < b then true else if b < a then false else strLess as bs

/-- The relation `a <= b` on Go strings. -/
def strLE (a b : GoString) : Prop := strLess b a = false

instance : DecidableRel strLE := fun a b => inferInstanceAs (Decidable (strLess b a = false))

/-- The call `sort.Strings(keys)`: the keys in increasing order. -/
def sortStrings (keys : List GoString) : List GoString := keys.insertionSort strLE

/-- The predicate `shouldEscape(c, encodeQueryComponent)` of `net/url`: letters,
digits and `-`, `_`, `.`, `~` are kept, every other byte is escaped. -/
def shouldEscape (c : UInt8) : Bool :=
  if (97 ≤ c ∧ c ≤ 122) ∨ (65 ≤ c ∧ c ≤ 90) ∨ (48 ≤ c ∧ c ≤ 57) then false
  else if c = 45 ∨ c = 95 ∨ c = 46 ∨ c = 126 then false
  else true

/-- The table `upperhex` of `net/url`, indexed by a nibble. -/
def upperhex (n : Nat) : UInt8 := (str "0123456789ABCDEF").getD n 0

/-- What `url.QueryEscape` writes for one byte: `+` for a space, `%XX` for an
escaped byte, the byte itself otherwise. -/
def escapeByte (c : UInt8) : GoString :=
  if c = 32 then [43]
  else if shouldEscape c then [37, upperhex (c.toNat / 16), upperhex (c.toNat % 16)]
  else [c]

/-- The function `url.QueryEscape`. -/
def QueryEscape (s : GoString) : GoString := s.flatMap escapeByte

/-- Modelled from the spec: `url.Values.Encode` of Go's `net/url`, which is not
part of this repository. It sorts the keys, and for each key and each of its
values writes `&` unless the buffer is still empty, then the escaped key, `=`
and the escaped value. -/
def Values.Encode (v : Values) : GoString :=
  if v.length = 0 then []
  else
    (sortStrings (v.map Prod.fst)).foldl
      (fun buf k =>
        let vs := v.index k
        let keyEscaped := QueryEscape k
        vs.foldl
          (fun buf val =>
            let buf := if buf.length > 0 then buf ++ [38] else buf
            buf ++ keyEscaped ++ [61] ++ QueryEscape val)
          buf)
      []

/-- `createRequestURI`, `client.go` lines 125-130. -/
def createRequestURI (base : GoString) (params : Values) : GoString :=
  let base := if params.length ≠ 0 then base ++ (str "?" ++ params.Encode) else base
  base

/-- Form encoding as the specification words it: the entries ordered by key,
one `key=value` pair per value of a key, the pairs joined by `&`, keys and
values escaped (a space becomes `+`). -/
def formEncode (params : Values) : GoString :=
  let ordered := params.insertionSort (fun a b => strLE a.1 b.1)
  let pairs := ordered.flatMap
    (fun kv => kv.2.map (fun val => QueryEscape kv.1 ++ str "=" ++ QueryEscape val))
  (str "&").intercalate pairs

/-- How the loop of `Encode` adds one pair to the buffer: `&` first unless the
buffer is empty. -/
def writePair (buf pair : GoString) : GoString :=
  (if buf.length > 0 then buf ++ [38] else buf) ++ pair

/-- The `key=value` pairs of one entry, escaped. -/
def entryPairs (kv : GoString × List GoString) : List GoString :=
  kv.2.map (fun val => QueryEscape kv.1 ++ str "=" ++ QueryEscape val)

/-! ## Response classifier -/

/-- A Go `error` value, with the text its `Error()` method returns. -/
structure GoError where
  Error : GoString
  deriving DecidableEq, Repr

/-- The constructor `errors.New(text)`. -/
def errorsNew (text : GoString) : GoError := { Error := text }

/-- An `http.Header`: a map from field name to values, `none` for the nil map. -/
abbrev Header := Option (List (GoString × List GoString))

/-- An `io.ReadCloser` seen through `ioutil.ReadAll`: the chunks its `Read`
calls deliver, then how reading ends, with `io.EOF` (`none`) or with another
error. -/
structure Body where
  chunks : List (List UInt8)
  failure : Option GoError
  deriving DecidableEq, Repr

/-- The call `ioutil.ReadAll(r)`: everything read before reading ended, and the
error that ended it unless that was `io.EOF`. -/
def ReadAll (r : Body) : List UInt8 × Option GoError := (r.chunks.flatten, r.failure)

/-- The fields of `http.Response` that `getResponse` reads. `Body` is an
interface value, `none` when nil. -/
structure HttpResponse where
  Status : GoString
  StatusCode : Int
  Header : Header
  Body : Option Body
  deriving DecidableEq, Repr

/-- Modelled from the spec: the type `tumblr.Response` of the wrapped library
`github.com/tumblr/tumblr.go`, which is not part of this repository: the raw
body bytes (`none` for the nil slice) and the headers. -/
structure Response where
  body : Option (List UInt8)
  Headers : Header
  deriving DecidableEq, Repr

/-- The zero value `tumblr.Response{}`. -/
def Response.zero : Response := { body := none, Headers := none }

/-- Modelled from the spec: `tumblr.NewResponse(body, headers)` of the wrapped
library, which wraps the raw body and the headers. -/
def NewResponse (body : List UInt8) (headers : Header) : Response :=
  { body := some body, Headers := headers }

/-- `getResponse`, `client.go` lines 133-149. `resp` is a pointer, `none` when
nil; `e` is an `error`, `none` when nil. Evaluating `resp.Body.Close` for the
`defer` panics when `resp` or `resp.Body` is nil. -/
def getResponse (resp : Option HttpResponse) (e : Option GoError) :
    Except Panic (Response × Option GoError) :=
  let response := Response.zero
  match e with
  | some e => .ok (response, some e)
  | none =>
    match resp with
    | none => .error .nilDereference
    | some resp =>
      match resp.Body with
      | none => .error .nilDereference
      | some body =>
        let response := { response with Headers := resp.Header }
        match ReadAll body with
        | (_, some e) => .ok (response, some e)
        | (body, none) =>
          let response := NewResponse body resp.Header
          if resp.StatusCode < 200 ∨ resp.StatusCode ≥ 400 then
            .ok (response, some (errorsNew resp.Status))
          else
            .ok (response, none)

/-! ## Theorems: URI builder -/

/-- A path that starts with `/` loses that one byte and the rest is appended. -/
theorem appendPath_slash (base rest : GoString) :
    appendPath base (slash :: rest) = .ok (base ++ rest) := by
  simp [appendPath]

/-- A non-empty path that does not start with `/` is appended unchanged. -/
theorem appendPath_other (base rest : GoString) (c : UInt8) (hc : c ≠ slash) :
    appendPath base (c :: rest) = .ok (base ++ c :: rest) := by
  simp [appendPath, hc]

/-- The empty path makes `path[0]` panic, whatever the base. -/
theorem appendPath_nil (base : GoString) :
    appendPath base [] = .error (.indexOutOfRange 0 0) := by
  simp [appendPath]

/-- C7, at the failing input `p = "/"`: `appendPath("base", "/")` returns
`"base"` while `appendPath("base", p[1:])`, whose path is empty, panics with an
index out of range, so the two sides of the claimed equation differ. -/
theorem C7_appendPath_single_slash :
    appendPath (str "base") (str "/") = .ok (str "base") ∧
    (str "/").drop 1 = [] ∧
    appendPath (str "base") ((str "/").drop 1) = .error (.indexOutOfRange 0 0) ∧
    appendPath (str "base") (str "/") ≠ appendPath (str "base") ((str "/").drop 1) := by
  decide

/-- C8, at the failing input `p = ""`: the empty path does not start with `/`,
yet `appendPath(b, "")` panics with an index out of range for every base `b`
instead of returning `b + ""`. -/
theorem C8_appendPath_empty_path (base : GoString) :
    ([] : GoString)[0]? ≠ some slash ∧
    appendPath base [] = .error (.indexOutOfRange 0 0) ∧
    appendPath base [] ≠ .ok (base ++ []) := by
  simp [appendPath]

/-! ## Theorems: credentials and the cached client -/

/-- C2: `SetConsumer` and `SetToken` each leave the cached client nil, whatever
was cached before, and leave their credential slot set (to the new pair). -/
theorem C2_setters_clear_cache (c : Client) (a b : GoString) :
    (c.SetConsumer a b).client = none ∧
    (c.SetConsumer a b).consumer = some (NewConfig a b) ∧
    (c.SetToken a b).client = none ∧
    (c.SetToken a b).user = some (NewToken a b) := by
  simp [Client.SetConsumer, Client.SetToken]

/-- C3: without consumer credentials `GetHttpClient` panics with its message,
so it returns no client, whatever the user slot and the cache hold. -/
theorem C3_getHttpClient_no_consumer (c : Client) (h : c.consumer = none) :
    c.GetHttpClient = .error (.explicit noConsumerMsg) ∧
    ∀ c' cl, c.GetHttpClient ≠ .ok (c', cl) := by
  simp [Client.GetHttpClient, h]

/-- Witness of C3: a client with user credentials and a cached client but no
consumer. -/
theorem C3_getHttpClient_no_consumer_witness :
    (Client.mk none (some (NewToken (str "t") (str "s"))) (some DefaultClient)).consumer = none ∧
    (Client.mk none (some (NewToken (str "t") (str "s"))) (some DefaultClient)).GetHttpClient
      = .error (.explicit noConsumerMsg) :=
  ⟨rfl, (C3_getHttpClient_no_consumer _ rfl).1⟩

/-- C9: with consumer credentials set and user credentials never set,
`GetHttpClient` returns a client, and afterwards the user slot holds the pair of
empty token and empty token secret. -/
theorem C9_getHttpClient_default_user (c : Client) (consumer : Config)
    (hc : c.consumer = some consumer) (hu : c.user = none) :
    ∃ c' cl, c.GetHttpClient = .ok (c', cl) ∧ c'.user = some (NewToken [] []) := by
  simp [Client.GetHttpClient, hc, hu, Client.SetToken]

/-- Witness of C9: the client made by `NewClient("some key", "some secret")`. -/
theorem C9_getHttpClient_default_user_witness :
    (NewClient (str "some key") (str "some secret")).user = none ∧
    ∃ c' cl, (NewClient (str "some key") (str "some secret")).GetHttpClient = .ok (c', cl) ∧
      c'.user = some (NewToken [] []) :=
  ⟨rfl, C9_getHttpClient_default_user _ (NewConfig (str "some key") (str "some secret")) rfl rfl⟩

/-- `SetConsumer` yields a consistent cache: it empties it. -/
theorem cacheConsistent_SetConsumer (c : Client) (a b : GoString) :
    (c.SetConsumer a b).cacheConsistent := by
  intro cached h
  simp [Client.SetConsumer] at h

/-- `SetToken` yields a consistent cache: it empties it. -/
theorem cacheConsistent_SetToken (c : Client) (a b : GoString) :
    (c.SetToken a b).cacheConsistent := by
  intro cached h
  simp [Client.SetToken] at h

/-- A returning `GetHttpClient` keeps a consistent cache consistent. -/
theorem cacheConsistent_GetHttpClient (c c' : Client) (cl : HttpClient)
    (hinv : c.cacheConsistent) (h : c.GetHttpClient = .ok (c', cl)) :
    c'.cacheConsistent := by
  unfold Client.GetHttpClient at h
  cases hcons : c.consumer with
  | none => simp [hcons] at h
  | some consumer =>
    cases hu : c.user with
    | none =>
      simp [hcons, hu, Client.SetToken] at h
      obtain ⟨rfl, -⟩ := h
      intro cached hcached
      refine ⟨consumer, NewToken [] [], rfl, rfl, ?_⟩
      simp [Config.Client] at hcached
      simp [signingClient, Config.Client, ← hcached]
    | some user =>
      cases hcl : c.client with
      | some cached0 =>
        simp [hcons, hu, hcl] at h
        obtain ⟨rfl, -⟩ := h
        exact hinv
      | none =>
        simp [hcons, hu, hcl] at h
        obtain ⟨rfl, -⟩ := h
        intro cached hcached
        refine ⟨consumer, user, rfl, rfl, ?_⟩
        simp [Config.Client] at hcached
        simp [signingClient, Config.Client, ← hcached]

/-- Every call that returns keeps a consistent cache consistent. -/
theorem cacheConsistent_apply (op : Op) (c c' : Client)
    (hinv : c.cacheConsistent) (h : op.apply c = some c') : c'.cacheConsistent := by
  cases op with
  | setConsumer a b =>
    simp [Op.apply] at h
    subst h
    exact cacheConsistent_SetConsumer c a b
  | setToken a b =>
    simp [Op.apply] at h
    subst h
    exact cacheConsistent_SetToken c a b
  | getHttpClient =>
    simp only [Op.apply] at h
    split at h
    · rename_i c1 cl heq
      simp at h
      subst h
      exact cacheConsistent_GetHttpClient c c1 cl hinv heq
    · simp at h

/-- A run of calls that all return keeps a consistent cache consistent. -/
theorem cacheConsistent_runOps (ops : List Op) (c c' : Client)
    (hinv : c.cacheConsistent) (h : runOps ops c = some c') : c'.cacheConsistent := by
  induction ops generalizing c with
  | nil =>
    simp [runOps] at h
    subst h
    exact hinv
  | cons op ops ih =>
    simp only [runOps] at h
    split at h
    · rename_i c1 heq
      exact ih c1 (cacheConsistent_apply op c c1 hinv heq) h
    · simp at h

/-- C10: in every state reached from the zero `Client` by `SetConsumer`,
`SetToken` and returning `GetHttpClient` calls, a cached client implies that
consumer and user credentials are set and that the cached client is the one
built from exactly the stored consumer and user. -/
theorem C10_cache_consistent (ops : List Op) (c : Client)
    (h : runOps ops Client.zero = some c) :
    ∀ cached, c.client = some cached →
      ∃ consumer user, c.consumer = some consumer ∧ c.user = some user ∧
        cached = signingClient consumer user :=
  cacheConsistent_runOps ops Client.zero c (by intro cached h0; simp [Client.zero] at h0) h

/-- Witness of C10: set the consumer, fetch the client, set a token, fetch
again: the cache holds the client built from the key pair and the token. -/
theorem C10_cache_consistent_witness :
    runOps [.setConsumer (str "k") (str "s"), .getHttpClient,
        .setToken (str "t") (str "u"), .getHttpClient] Client.zero
      = some (Client.mk (some (NewConfig (str "k") (str "s"))) (some (NewToken (str "t") (str "u")))
          (some (signingClient (NewConfig (str "k") (str "s")) (NewToken (str "t") (str "u"))))) ∧
    ∃ consumer user,
      some (NewConfig (str "k") (str "s")) = some consumer ∧
      some (NewToken (str "t") (str "u")) = some user ∧
      signingClient (NewConfig (str "k") (str "s")) (NewToken (str "t") (str "u"))
        = signingClient consumer user :=
  ⟨by decide,
   C10_cache_consistent
     [.setConsumer (str "k") (str "s"), .getHttpClient,
       .setToken (str "t") (str "u"), .getHttpClient]
     (Client.mk (some (NewConfig (str "k") (str "s"))) (some (NewToken (str "t") (str "u")))
       (some (signingClient (NewConfig (str "k") (str "s")) (NewToken (str "t") (str "u")))))
     (by decide) _ rfl⟩

/-! ## Theorems: the order on Go strings -/

/-- Two bytes are equal or one is smaller than the other. -/
theorem byte_trichotomy (a b : UInt8) : a < b ∨ a = b ∨ b < a := by
  by_cases h1 : a < b
  · exact Or.inl h1
  · by_cases h2 : b < a
    · exact Or.inr (Or.inr h2)
    · exact Or.inr (Or.inl (UInt8.le_antisymm (UInt8.not_lt.mp h2) (UInt8.not_lt.mp h1)))

/-- No string is smaller than the empty string. -/
theorem strLess_nil_right (a : GoString) : strLess a [] = false := by
  cases a <;> rfl

/-- Comparison of two non-empty strings, unfolded. -/
theorem strLess_cons (a b : UInt8) (as bs : GoString) :
    strLess (a :: as) (b :: bs) = if a < b then true else if b < a then false else strLess as bs := rfl

/-- The order on strings is asymmetric. -/
theorem strLess_asymm (a b : GoString) (h : strLess a b = true) : strLess b a = false := by
  induction a generalizing b with
  | nil => exact strLess_nil_right b
  | cons x xs ih =>
    cases b with
    | nil => simp [strLess] at h
    | cons y ys =>
      rw [strLess_cons] at h ⊢
      rcases byte_trichotomy x y with hxy | rfl | hyx
      · simp [UInt8.lt_asymm hxy, hxy]
      · simp [UInt8.lt_irrefl] at h ⊢
        exact ih ys h
      · simp [UInt8.lt_asymm hyx, hyx] at h

/-- If `c < a` then every `b` is below `a` or above `c`. -/
theorem strLess_cotrans (a b c : GoString) (h : strLess c a = true) :
    strLess b a = true ∨ strLess c b = true := by
  induction a generalizing b c with
  | nil => rw [strLess_nil_right] at h; cases h
  | cons y as ih =>
    cases b with
    | nil => left; rfl
    | cons z bs =>
      cases c with
      | nil => right; rfl
      | cons x cs =>
        rw [strLess_cons] at h
        rw [strLess_cons, strLess_cons]
        rcases byte_trichotomy z y with hzy | rfl | hyz
        · simp [hzy]
        · rcases byte_trichotomy x z with hxz | rfl | hzx
          · simp [hxz]
          · simp [UInt8.lt_irrefl] at h ⊢
            exact ih bs cs h
          · simp [hzx, UInt8.lt_asymm hzx] at h
        · right
          rcases byte_trichotomy x y with hxy | rfl | hyx
          · simp [UInt8.lt_trans hxy hyz]
          · simp [hyz]
          · simp [hyx, UInt8.lt_asymm hyx] at h

/-- Two strings neither of which is smaller than the other are equal. -/
theorem strLess_antisymm (a b : GoString) (h1 : strLess a b = false) (h2 : strLess b a = false) :
    a = b := by
  induction a generalizing b with
  | nil =>
    cases b with
    | nil => rfl
    | cons y ys => simp [strLess] at h1
  | cons x xs ih =>
    cases b with
    | nil => simp [strLess] at h2
    | cons y ys =>
      rw [strLess_cons] at h1 h2
      rcases byte_trichotomy x y with hxy | rfl | hyx
      · simp [hxy] at h1
      · simp [UInt8.lt_irrefl] at h1 h2
        rw [ih ys h1 h2]
      · simp [hyx] at h2

/-- Any two strings are comparable. -/
instance : IsTotal GoString strLE where
  total a b := by
    unfold strLE
    cases h : strLess b a with
    | false => exact Or.inl rfl
    | true => exact Or.inr (strLess_asymm b a h)

/-- The relation `<=` on strings is transitive. -/
instance : IsTrans GoString strLE where
  trans a b c hab hbc := by
    unfold strLE at *
    cases h : strLess c a with
    | false => rfl
    | true =>
      rcases strLess_cotrans a b c h with h1 | h1
      · rw [hab] at h1; cases h1
      · rw [hbc] at h1; cases h1

/-- The relation `<=` on strings is antisymmetric. -/
instance : IsAntisymm GoString strLE where
  antisymm a b hab hba := strLess_antisymm a b hba hab

/-- The call `sort.Strings` returns its argument in increasing order. -/
theorem sortStrings_sorted (keys : List GoString) : (sortStrings keys).Sorted strLE :=
  List.sorted_insertionSort strLE keys

/-- The call `sort.Strings` does not depend on the order of its argument, so
the order in which a map is iterated does not matter. -/
theorem sortStrings_perm (l₁ l₂ : List GoString) (h : l₁.Perm l₂) :
    sortStrings l₁ = sortStrings l₂ :=
  List.eq_of_perm_of_sorted
    (((List.perm_insertionSort strLE l₁).trans h).trans (List.perm_insertionSort strLE l₂).symm)
    (sortStrings_sorted l₁) (sortStrings_sorted l₂)

/-! ## Theorems: query parameters -/

/-- The literal `"="` is the byte 61. -/
theorem str_eq : str "=" = [61] := by decide
/-- The literal `"&"` is the byte 38. -/
theorem str_amp : str "&" = [38] := by decide

/-- The inner loop of `Encode` writes the pairs of one key with `writePair`. -/
theorem foldl_values (ke : GoString) (vs : List GoString) (buf : GoString) :
    vs.foldl (fun buf val =>
        let buf := if buf.length > 0 then buf ++ [38] else buf
        buf ++ ke ++ [61] ++ QueryEscape val) buf
      = (vs.map (fun val => ke ++ str "=" ++ QueryEscape val)).foldl writePair buf := by
  rw [List.foldl_map]
  congr 1
  funext buf val
  simp [writePair, str_eq]

/-- The outer loop of `Encode` writes the pairs of all keys in turn. -/
theorem foldl_keys {κ : Type} (f : κ → List GoString) (keys : List κ) (buf : GoString) :
    keys.foldl (fun buf k => (f k).foldl writePair buf) buf
      = (keys.flatMap f).foldl writePair buf := by
  induction keys generalizing buf with
  | nil => rfl
  | cons k ks ih => simp [List.foldl_append, ih]

/-- Onto a non-empty buffer every pair is written after a `&`. -/
theorem foldl_writePair_of_ne_nil (ps : List GoString) (buf : GoString) (h : buf ≠ []) :
    ps.foldl writePair buf = buf ++ (ps.map (fun p => [38] ++ p)).flatten := by
  induction ps generalizing buf with
  | nil => simp
  | cons p ps ih =>
    have hlen : buf.length > 0 := List.length_pos.mpr h
    have hw : writePair buf p = buf ++ [38] ++ p := by simp [writePair, hlen]
    rw [List.foldl_cons, hw, ih _ (by simp [h])]
    simp

/-- Joining a non-empty list: the head, then each other item after the separator. -/
theorem intercalate_cons (sep p : GoString) (ps : List GoString) :
    sep.intercalate (p :: ps) = p ++ (ps.map (fun q => sep ++ q)).flatten := by
  induction ps generalizing p with
  | nil => simp [List.intercalate]
  | cons q qs ih =>
    have := ih q
    simp [List.intercalate] at this ⊢
    exact this

/-- Writing non-empty pairs onto the empty buffer joins them with `&`. -/
theorem foldl_writePair_nil (ps : List GoString) (h : ∀ p ∈ ps, p ≠ []) :
    ps.foldl writePair [] = (str "&").intercalate ps := by
  cases ps with
  | nil => simp [List.intercalate]
  | cons p ps =>
    have hp : p ≠ [] := h p (by simp)
    have hw : writePair [] p = p := by simp [writePair]
    rw [List.foldl_cons, hw, foldl_writePair_of_ne_nil ps p hp, intercalate_cons, str_amp]

/-- Every pair holds at least its `=`. -/
theorem entryPairs_ne_nil (kv : GoString × List GoString) : ∀ p ∈ entryPairs kv, p ≠ [] := by
  intro p hp
  simp [entryPairs, str_eq] at hp
  obtain ⟨val, -, rfl⟩ := hp
  simp

/-- In a map with distinct keys, indexing by the key of an entry gives its values. -/
theorem index_of_mem (v : Values) (h : v.WellFormed) (kv : GoString × List GoString)
    (hm : kv ∈ v) : v.index kv.1 = kv.2 := by
  induction v with
  | nil => simp at hm
  | cons e es ih =>
    obtain ⟨k, vs⟩ := e
    simp only [Values.WellFormed, List.map_cons, List.nodup_cons] at h
    rcases List.mem_cons.mp hm with rfl | hm
    · simp [Values.index, List.lookup_cons]
    · have hne : kv.1 ≠ k := by
        intro heq
        exact h.1 (heq ▸ List.mem_map_of_mem Prod.fst hm)
      have := ih h.2 hm
      simp only [Values.index, List.lookup_cons] at this ⊢
      have hb : (kv.1 == k) = false := by simpa using hne
      rw [hb]
      exact this

/-- Sorting the keys gives the keys of the entries sorted by key. -/
theorem sortStrings_keys (v : Values) :
    sortStrings (v.map Prod.fst) = (v.insertionSort (fun a b => strLE a.1 b.1)).map Prod.fst := by
  unfold sortStrings
  symm
  apply List.map_insertionSort
  intro a _ b _
  exact Iff.rfl

/-- On a map with distinct keys, the buffer loop of `Encode` computes `formEncode`. -/
theorem Encode_eq_formEncode (v : Values) (h : v.WellFormed) : v.Encode = formEncode v := by
  unfold Values.Encode formEncode
  split
  · rename_i h0
    have : v = [] := List.length_eq_zero.mp h0
    subst this
    simp [List.intercalate]
  · simp only [foldl_values]
    rw [foldl_keys (fun k => (v.index k).map (fun val => QueryEscape k ++ str "=" ++ QueryEscape val)),
      sortStrings_keys, List.flatMap_map]
    have hcongr : (v.insertionSort (fun a b => strLE a.1 b.1)).flatMap
          (fun kv => (v.index kv.1).map (fun val => QueryEscape kv.1 ++ str "=" ++ QueryEscape val))
        = (v.insertionSort (fun a b => strLE a.1 b.1)).flatMap entryPairs := by
      simp only [List.flatMap_def]
      congr 1
      apply List.map_congr_left
      intro kv hkv
      rw [index_of_mem v h kv ((List.mem_insertionSort _).mp hkv)]
      rfl
    rw [hcongr]
    apply foldl_writePair_nil
    intro p hp
    obtain ⟨kv, -, hkv⟩ := List.mem_flatMap.mp hp
    exact entryPairs_ne_nil kv p hkv

/-- A key that no entry carries indexes to the nil slice. -/
theorem index_of_not_mem (v : Values) (k : GoString) (h : ∀ kv ∈ v, kv.1 ≠ k) :
    v.index k = [] := by
  induction v with
  | nil => rfl
  | cons e es ih =>
    obtain ⟨k', vs⟩ := e
    have hne : k ≠ k' := fun heq => h (k', vs) (by simp) heq.symm
    have hb : (k == k') = false := by simpa using hne
    have := ih (fun kv hkv => h kv (List.mem_cons_of_mem _ hkv))
    simp only [Values.index, List.lookup_cons] at this ⊢
    rw [hb]
    exact this

/-- Indexing a map does not depend on the order of its entries. -/
theorem index_perm (v₁ v₂ : Values) (h : v₁.Perm v₂) (wf : v₁.WellFormed) (k : GoString) :
    v₁.index k = v₂.index k := by
  have wf₂ : v₂.WellFormed := (h.map Prod.fst).nodup_iff.mp wf
  by_cases hk : ∃ kv ∈ v₁, kv.1 = k
  · obtain ⟨kv, hkv, rfl⟩ := hk
    rw [index_of_mem v₁ wf kv hkv, index_of_mem v₂ wf₂ kv (h.mem_iff.mp hkv)]
  · have h₁ : ∀ kv ∈ v₁, kv.1 ≠ k := fun kv hkv heq => hk ⟨kv, hkv, heq⟩
    have h₂ : ∀ kv ∈ v₂, kv.1 ≠ k := fun kv hkv => h₁ kv (h.mem_iff.mpr hkv)
    rw [index_of_not_mem v₁ k h₁, index_of_not_mem v₂ k h₂]

/-- The entries ordered by key are the sorted keys, each with its values. -/
theorem ordered_eq (v : Values) (h : v.WellFormed) :
    v.insertionSort (fun a b => strLE a.1 b.1)
      = (sortStrings (v.map Prod.fst)).map (fun k => (k, v.index k)) := by
  rw [sortStrings_keys, List.map_map]
  conv_lhs => rw [← List.map_id (v.insertionSort (fun a b => strLE a.1 b.1))]
  apply List.map_congr_left
  intro kv hkv
  have := index_of_mem v h kv ((List.mem_insertionSort _).mp hkv)
  simp [this]

/-- The encoding does not depend on the order in which the entries of the map
are listed. -/
theorem Encode_perm (v₁ v₂ : Values) (h : v₁.Perm v₂) (wf : v₁.WellFormed) :
    v₁.Encode = v₂.Encode := by
  have wf₂ : v₂.WellFormed := (h.map Prod.fst).nodup_iff.mp wf
  rw [Encode_eq_formEncode v₁ wf, Encode_eq_formEncode v₂ wf₂]
  unfold formEncode
  simp only []
  rw [ordered_eq v₁ wf, ordered_eq v₂ wf₂, sortStrings_perm _ _ (h.map Prod.fst)]
  congr 2
  apply List.map_congr_left
  intro k _
  rw [index_perm v₁ v₂ h wf k]

/-- The request URI does not depend on the order in which the entries of the
map are listed. -/
theorem createRequestURI_perm (base : GoString) (v₁ v₂ : Values) (h : v₁.Perm v₂)
    (wf : v₁.WellFormed) : createRequestURI base v₁ = createRequestURI base v₂ := by
  simp only [createRequestURI, h.length_eq, Encode_perm v₁ v₂ h wf]

/-- The function `url.QueryEscape` works byte by byte. -/
theorem QueryEscape_append (s t : GoString) :
    QueryEscape (s ++ t) = QueryEscape s ++ QueryEscape t := by
  simp [QueryEscape]

/-- C6: `createRequestURI(b, params)` is `b` for the empty mapping and
`b + "?" + formEncode(params)` otherwise, where `formEncode` orders the pairs by
key, gives one pair per value, joins them with `&`; and escaping turns every
space into `+`. -/
theorem C6_createRequestURI (base : GoString) (params : Values) (h : params.WellFormed) :
    (params = [] → createRequestURI base params = base) ∧
    (params ≠ [] → createRequestURI base params = base ++ str "?" ++ formEncode params) ∧
    (∀ s t : GoString, QueryEscape (s ++ str " " ++ t) = QueryEscape s ++ str "+" ++ QueryEscape t) := by
  refine ⟨?_, ?_, ?_⟩
  · intro h0
    subst h0
    simp [createRequestURI]
  · intro h0
    have hlen : params.length ≠ 0 := fun hl => h0 (List.length_eq_zero.mp hl)
    simp [createRequestURI, hlen, Encode_eq_formEncode params h]
  · intro s t
    have hsp : QueryEscape (str " ") = str "+" := by decide
    rw [QueryEscape_append, QueryEscape_append, hsp]

/-- Witness of C6: a mapping with two keys given out of order and a value with
a space. -/
theorem C6_createRequestURI_witness :
    Values.WellFormed [(str "test2", [str "value2"]), (str "test1", [str "value 1", str ""])] ∧
    createRequestURI (str "base") [(str "test2", [str "value2"]), (str "test1", [str "value 1", str ""])]
      = str "base" ++ str "?"
        ++ formEncode [(str "test2", [str "value2"]), (str "test1", [str "value 1", str ""])] ∧
    formEncode [(str "test2", [str "value2"]), (str "test1", [str "value 1", str ""])]
      = str "test1=value+1&test1=&test2=value2" :=
  ⟨by decide,
   (C6_createRequestURI (str "base")
     [(str "test2", [str "value2"]), (str "test1", [str "value 1", str ""])] (by decide)).2.1
     (by simp),
   by decide⟩

/-! ## Theorems: response classifier -/

/-- C4: with a non-nil transport error `e`, `getResponse` returns exactly `e`
(and the zero response) for every `resp`, nil or not, with or without a body:
the result does not depend on `resp`, and no panic can come from its body. -/
theorem C4_getResponse_transport_error (resp : Option HttpResponse) (e : GoError) :
    getResponse resp (some e) = .ok (Response.zero, some e) := by
  simp [getResponse]

/-- C5: when there is no transport error and reading the body ends with the
error `err`, `getResponse` returns the non-nil error `err` for every status
code, success range included, with only the headers captured. -/
theorem C5_getResponse_read_error (resp : HttpResponse) (body : Body) (err : GoError)
    (hb : resp.Body = some body) (hr : (ReadAll body).2 = some err) :
    getResponse (some resp) none
      = .ok ({ Response.zero with Headers := resp.Header }, some err) := by
  simp only [ReadAll] at hr
  simp [getResponse, hb, ReadAll, hr]

/-- Witness of C5: status `200 OK` with a body whose first read fails. -/
theorem C5_getResponse_read_error_witness :
    getResponse (some ⟨str "200 OK", 200, some [], some ⟨[], some (errorsNew (str "Always fail"))⟩⟩) none
      = .ok ({ Response.zero with Headers := some [] }, some (errorsNew (str "Always fail"))) :=
  C5_getResponse_read_error ⟨str "200 OK", 200, some [], some ⟨[], some (errorsNew (str "Always fail"))⟩⟩
    ⟨[], some (errorsNew (str "Always fail"))⟩ (errorsNew (str "Always fail")) rfl rfl

/-- C1: with no transport error and a body that reads to the end without
failure, `getResponse` returns a nil error when `200 <= code < 400`, and
otherwise an error whose text is the status line `resp.Status`; in both cases
the response wraps the body read and the headers. -/
theorem C1_getResponse_status (resp : HttpResponse) (body : Body)
    (hb : resp.Body = some body) (hr : (ReadAll body).2 = none) :
    (200 ≤ resp.StatusCode ∧ resp.StatusCode < 400 →
      getResponse (some resp) none
        = .ok (NewResponse (ReadAll body).1 resp.Header, none)) ∧
    (resp.StatusCode < 200 ∨ resp.StatusCode ≥ 400 →
      ∃ err, getResponse (some resp) none
          = .ok (NewResponse (ReadAll body).1 resp.Header, some err) ∧
        err.Error = resp.Status) := by
  simp only [ReadAll] at hr
  constructor
  · intro hcode
    have : ¬ (resp.StatusCode < 200 ∨ resp.StatusCode ≥ 400) := by omega
    simp [getResponse, hb, ReadAll, hr, this]
  · intro hcode
    refine ⟨errorsNew resp.Status, ?_, rfl⟩
    simp [getResponse, hb, ReadAll, hr, hcode]

/-- Witness of C1: status `404 Not Found` with a readable body. -/
theorem C1_getResponse_status_witness :
    ∃ err, getResponse (some ⟨str "404 Not Found", 404, some [], some ⟨[str "some string"], none⟩⟩) none
        = .ok (NewResponse (str "some string") (some []), some err) ∧
      err.Error = str "404 Not Found" :=
  (C1_getResponse_status ⟨str "404 Not Found", 404, some [], some ⟨[str "some string"], none⟩⟩
    ⟨[str "some string"], none⟩ rfl rfl).2 (Or.inr (by decide))

end Tumblrclient
